import Mathlib

/-!
Verification of the Jaeum native code generator (`src/jaeum/compiler.py`).

The compiler is a single-pass AST-to-assembly lowerer.  We embed it shallowly:

* `TokenType`, `Token`, `PyValue` mirror `tokens.py` and the dynamic values
  stored in `Literal` nodes (`ast_nodes.py`).  Only the token fields the
  compiler reads (`type`, `lexeme`) are modelled.
* `Expr` / `Stmt` mirror `ast_nodes.py`.  A `Block` field (`If.then_branch`,
  `While.body`) is represented by its statement list, because the compiler
  only ever iterates `block.statements`.
* `Cst` carries the compiler's mutable attributes except `self.output`.
  In the source, `self.output` is written only by `Compiler.emit` (append)
  and read only once, by `Compiler.compile` when rendering; it is therefore
  modelled writer-style: every visit returns the list of lines it emitted,
  in order.  The dead attributes `data_section` and `bss_section`
  (initialised in `__init__`, never used) are omitted.
* Exceptions (`generic_visit`'s `raise`, Python `IndexError` on `args[i]`)
  are modelled with `Except String`.
-/

inductive TokenType where
  | EOF | IDENTIFIER | NUMBER | STRING
  | IF | ELSE | WHILE | FOR | BREAK | CONTINUE | FUNC | RETURN | PRINT | INPUT
  | FILE_WRITE | FILE_APPEND | FILE_READ
  | TRUE | FALSE | NULL | UNDEFINED
  | PLUS | MINUS | STAR | SLASH | PERCENT
  | EQUAL | EQUAL_EQUAL | BANG | BANG_EQUAL
  | LESS | LESS_EQUAL | GREATER | GREATER_EQUAL
  | AND | OR
  | LPAREN | RPAREN | LBRACE | RBRACE | LBRACKET | RBRACKET | SEMICOLON | COMMA
deriving DecidableEq, Repr

/-- A token as the compiler consumes it: only `type` and `lexeme` are ever
read by `compiler.py` (the `literal` and `line` fields are not). -/
structure Token where
  type : TokenType
  lexeme : String
deriving DecidableEq, Repr

/-- The Python value stored in a `Literal` node: an int, a str, a bool or
`None`.  (The parser produces exactly these: numbers, strings, `True`,
`False`, `None`, and the string "UNDEFINED".) -/
inductive PyValue where
  | int (n : Int)
  | str (s : String)
  | bool (b : Bool)
  | pynone
deriving DecidableEq, Repr

mutual
inductive Expr where
  | binary (left : Expr) (operator : Token) (right : Expr)
  | grouping (expression : Expr)
  | literal (value : PyValue)
  | unary (operator : Token) (right : Expr)
  | variable (name : Token)
  | assign (name : Token) (value : Expr)
  | logical (left : Expr) (operator : Token) (right : Expr)
  | call (callee : Expr) (paren : Token) (arguments : List Expr)
  | arrayLiteral (elements : List Expr) (bracket : Token)
  | get (object : Expr) (name : Expr) (bracket : Token)
  | setE (object : Expr) (name : Expr) (value : Expr) (bracket : Token)

inductive Stmt where
  | expression (expression : Expr)
  | function (name : Token) (params : List Token) (body : List Stmt)
  | ifS (condition : Expr) (then_branch : List Stmt) (else_branch : Option (List Stmt))
  | printS (expression : Expr)
  | inputS (name : Token)
  | fileWrite (path : Expr) (content : Expr)
  | fileAppend (path : Expr) (content : Expr)
  | fileRead (path : Expr) (target_var : Token)
  | returnS (keyword : Token) (value : Option Expr)
  | whileS (condition : Expr) (body : List Stmt)
  | block (statements : List Stmt)
  | breakS (keyword : Token)
  | continueS (keyword : Token)
end

/-- Compiler state (`Compiler.__init__`), minus the write-only `output`
buffer.  `string_literals` and `variables` are Python dicts whose insertion
order matters for rendering; both are modelled as insertion-ordered lists
(`variables` holds just the keys: every stored value is the string
"global").  `loop_stack` keeps its top at the head (Python appends and
reads `[-1]`). -/
structure Cst where
  string_literals : List (String × String)
  -- the source attribute is `self.variables`; `variables` is reserved in Lean
  globalVars : List String
  label_counter : Nat
  loop_stack : List (String × String)
  locals : List (String × Nat)
  local_scope : Bool
  current_func_params : Option (List (String × Nat))
deriving DecidableEq, Repr

/-- The fresh state built by `Compiler.__init__`.  `current_func_params`
does not exist as an attribute until the first `visit_Function`; the
`hasattr` guard in `visit_Variable` is modelled by `Option`, with `none`
for "attribute absent or set to None". -/
def initialState : Cst :=
  { string_literals := [], globalVars := [], label_counter := 0,
    loop_stack := [], locals := [], local_scope := false,
    current_func_params := none }

/-- The emission monad: state passing plus the ordered list of lines the
computation appended to `self.output`, with `Except` for raised
exceptions. -/
def EmitM (α : Type) := Cst → Except String (α × Cst × List String)

instance : Monad EmitM where
  pure a := fun s => .ok (a, s, [])
  bind m f := fun s =>
    match m s with
    | .error e => .error e
    | .ok (a, s', o1) =>
      match f a s' with
      | .error e => .error e
      | .ok (b, s'', o2) => .ok (b, s'', o1 ++ o2)

/-- `Compiler.emit`: append one line to the output buffer. -/
def emitL (l : String) : EmitM Unit := fun s => .ok ((), s, [l])

/-- Emit a list of lines in order (used to model simple emit loops). -/
def emitLines (ls : List String) : EmitM Unit := fun s => .ok ((), s, ls)

/-- A raised Python exception. -/
def throwE {α : Type} (msg : String) : EmitM α := fun _ => .error msg

def getS : EmitM Cst := fun s => .ok (s, s, [])

def modifyS (f : Cst → Cst) : EmitM Unit := fun s => .ok ((), f s, [])

/-- `Compiler.new_label`: bump the counter and synthesise `L<n>`. -/
def new_label : EmitM String := fun s =>
  let n := s.label_counter + 1
  .ok ("L" ++ toString n, { s with label_counter := n }, [])

-- Assoc-list helpers standing in for Python dict membership and indexing.

def containsKey (m : List (String × Nat)) (k : String) : Bool :=
  m.any (fun p => p.1 == k)

def lookupA (m : List (String × Nat)) (k : String) : Option Nat :=
  (m.find? (fun p => p.1 == k)).map (fun p => p.2)

/-- Python dict assignment `m[k] = v`: overwrite in place if the key
exists, otherwise append. -/
def insertA (m : List (String × Nat)) (k : String) (v : Nat) : List (String × Nat) :=
  if containsKey m k then m.map (fun p => if p.1 == k then (k, v) else p)
  else m ++ [(k, v)]

mutual
/-- `Compiler._collect_vars` (lines 292-308), split per statement kind:
gather, in traversal order and with duplicates, the targets of `Assign`
expressions appearing as expression statements, recursing into blocks,
both branches of conditionals and loop bodies — and into nothing else (in
particular not into nested `Function` bodies). -/
def collectVarsStmt : Stmt → List String
  | .expression e =>
    match e with
    | .assign nt _ => [nt.lexeme]
    | _ => []
  | .block ss => collect_vars ss
  | .ifS _ t e =>
    collect_vars t ++ (match e with
      | some b => collect_vars b
      | none => [])
  | .whileS _ b => collect_vars b
  | _ => []

def collect_vars : List Stmt → List String
  | [] => []
  | st :: rest => collectVarsStmt st ++ collect_vars rest
end

/-- The offset-assignment loop of `Compiler.visit_Function` (lines 259-264):
walk the collected names, and give each name not yet in the table and not
registered as a global the next offset, at 8-byte strides from 8.
Returns the table together with the final `current_offset`. -/
def assignLocalsAux (globalVars : List String) :
    List String → List (String × Nat) → Nat → List (String × Nat) × Nat
  | [], locs, off => (locs, off)
  | v :: rest, locs, off =>
    if containsKey locs v then assignLocalsAux globalVars rest locs off
    else if globalVars.contains v then assignLocalsAux globalVars rest locs off
    else assignLocalsAux globalVars rest (locs ++ [(v, off)]) (off + 8)

def assignLocals (local_vars : List String) (globalVars : List String) :
    List (String × Nat) × Nat :=
  assignLocalsAux globalVars local_vars [] 8

/-- The frame-size rounding of `Compiler.visit_Function` (lines 267-271):
`stack_size = current_offset + 32`, rounded up to a multiple of 16. -/
def roundStack (stack_size : Nat) : Nat :=
  if stack_size % 16 ≠ 0 then stack_size + (16 - stack_size % 16) else stack_size

/-- The parameter table of `Compiler.visit_Function` (line 276): a dict
comprehension mapping each parameter lexeme to `16 + 8*i` (a later
duplicate name overwrites an earlier one, as in a Python dict). -/
def buildParams (params : List Token) : List (String × Nat) :=
  params.enum.foldl (fun m p => insertA m p.2.lexeme (16 + p.1 * 8)) []

/-- The register list `regs` of `Compiler.visit_Call` (line 328). -/
def regsCall : List String := ["rcx", "rdx", "r8", "r9"]

/-- The pop loop of `Compiler.visit_Call` (lines 331-335): for
`i in range(cnt-1, -1, -1)`, pop into `regs[i]` when `i < 4`, else pop
into `rax`.  `popLoop cnt` lists the lines in emission order (highest
index first). -/
def popLoop : Nat → List String
  | 0 => []
  | i + 1 =>
    (if i < 4 then "    pop " ++ regsCall.getD i "" else "    pop rax") :: popLoop i

/-- The intrinsic name list of `Compiler.visit_Call` (line 320). -/
def intrinsicNames : List String :=
  ["준비", "길이", "코드", "문자", "문자연결", "문자읽기", "문자열변환"]

/-- The `isinstance(expr.callee, ast.Variable)` test of `visit_Call`. -/
def isVariableE : Expr → Bool
  | .variable _ => true
  | _ => false

/-- The `isinstance(stmt.expression, ast.Literal) and
isinstance(stmt.expression.value, str)` test of `visit_Print`. -/
def isStrLiteral : Expr → Bool
  | .literal (.str _) => true
  | _ => false

mutual
/-- `Compiler.visit` dispatched over expression nodes.  Kinds with no
`visit_<Kind>` method in `compiler.py` (Grouping, Unary, Logical, Set)
fall to `generic_visit`, which raises. -/
def visitExpr : Expr → EmitM Unit
  -- visit_Literal (lines 151-161).  Python's `isinstance(expr.value, int)`
  -- is true for bools as well, so True/False take the integer branch and
  -- are formatted as "True"/"False"; the `expr.value is True` branch is
  -- dead code, and None reaches the final else.
  | .literal v =>
    match v with
    | .int n => emitL ("    mov rax, " ++ toString n)
    | .bool b => emitL ("    mov rax, " ++ (if b then "True" else "False"))
    | .str sv => do
      let s ← getS
      let lbl := "str_" ++ toString s.string_literals.length
      modifyS (fun t => { t with string_literals := t.string_literals ++ [(lbl, sv)] })
      emitL ("    lea rax, [" ++ lbl ++ "]")
    | .pynone => emitL "    mov rax, 0"
  -- visit_Variable (lines 163-172): locals, then parameters (guarded by
  -- local_scope and the hasattr check, modelled by the Option), then the
  -- global slot.
  | .variable nt => do
    let s ← getS
    let name := nt.lexeme
    match (if s.local_scope then lookupA s.locals name else none) with
    | some offset => emitL ("    mov rax, [rbp - " ++ toString offset ++ "]")
    | none =>
      match (if s.local_scope then
              (match s.current_func_params with
               | some m => lookupA m name
               | none => none)
             else none) with
      | some offset => emitL ("    mov rax, [rbp + " ++ toString offset ++ "]")
      | none => emitL ("    mov rax, [var_" ++ name ++ "]")
  -- visit_Assign (lines 174-209).  Lines 179-189 are a no-op (`pass`); in
  -- local scope a target found in neither table falls into the `pass` of
  -- lines 196-204, emitting nothing.
  | .assign nt v => do
    visitExpr v
    let s ← getS
    let name := nt.lexeme
    if s.local_scope then
      match lookupA s.locals name with
      | some offset => emitL ("    mov [rbp - " ++ toString offset ++ "], rax")
      | none =>
        if s.globalVars.contains name then
          emitL ("    mov [var_" ++ name ++ "], rax")
        else
          pure ()
    else do
      (if s.globalVars.contains name then pure ()
       else modifyS (fun t => { t with globalVars := t.globalVars ++ [name] }))
      emitL ("    mov [var_" ++ name ++ "], rax")
  -- visit_Binary (lines 211-239).  The membership test on line 228 lists
  -- only EQUAL_EQUAL, BANG_EQUAL, LESS and GREATER; LESS_EQUAL and
  -- GREATER_EQUAL (and PERCENT, and every other type) fall through and
  -- emit nothing after the pop, although the `cond` dict on lines 230-237
  -- does carry (unreachable) entries for them.
  | .binary l op r => do
    visitExpr l
    emitL "    push rax"
    visitExpr r
    emitL "    mov rbx, rax"
    emitL "    pop rax"
    match op.type with
    | .PLUS => emitL "    add rax, rbx"
    | .MINUS => emitL "    sub rax, rbx"
    | .STAR => emitL "    imul rax, rbx"
    | .SLASH => do
      emitL "    cqo"
      emitL "    idiv rbx"
    | .EQUAL_EQUAL => do
      emitL "    cmp rax, rbx"
      emitL "    sete al"
      emitL "    movzx rax, al"
    | .BANG_EQUAL => do
      emitL "    cmp rax, rbx"
      emitL "    setne al"
      emitL "    movzx rax, al"
    | .LESS => do
      emitL "    cmp rax, rbx"
      emitL "    setl al"
      emitL "    movzx rax, al"
    | .GREATER => do
      emitL "    cmp rax, rbx"
      emitL "    setg al"
      emitL "    movzx rax, al"
    | _ => pure ()
  -- visit_Call (lines 317-343): intrinsic dispatch only for a Variable
  -- callee; the argument push loop; pops via popLoop; shadow space around
  -- a `call` that is emitted only for a Variable callee.
  | .call callee _ args =>
    match callee with
    | .variable ftok =>
      if intrinsicNames.contains ftok.lexeme then
        compile_intrinsic ftok.lexeme args
      else do
        visitArgsPush args
        emitLines (popLoop args.length)
        emitL "    sub rsp, 32"
        emitL ("    call func_" ++ ftok.lexeme)
        emitL "    add rsp, 32"
    | _ => do
      visitArgsPush args
      emitLines (popLoop args.length)
      emitL "    sub rsp, 32"
      emitL "    add rsp, 32"
  -- visit_ArrayLiteral (lines 454-471)
  | .arrayLiteral elements _ => do
    let count := elements.length
    let size := if count * 8 == 0 then 8 else count * 8
    emitL ("    mov rcx, " ++ toString size)
    emitL "    sub rsp, 32"
    emitL "    call malloc"
    emitL "    add rsp, 32"
    emitL "    push rax"
    visitArrayElems elements 0
    emitL "    pop rax"
  -- visit_Get (lines 473-481)
  | .get o idx _ => do
    visitExpr o
    emitL "    push rax"
    visitExpr idx
    emitL "    mov rbx, rax"
    emitL "    pop rax"
    emitL "    lea rcx, [rax + rbx*8]"
    emitL "    mov rax, [rcx]"
  | .grouping _ => throwE "Compiler: No visit_Grouping method"
  | .unary _ _ => throwE "Compiler: No visit_Unary method"
  | .logical _ _ _ => throwE "Compiler: No visit_Logical method"
  | .setE _ _ _ _ => throwE "Compiler: No visit_Set method"

/-- `Compiler.visit` dispatched over statement nodes.  `Input` has no
`visit_Input` method and falls to `generic_visit`. -/
def visitStmt : Stmt → EmitM Unit
  | .expression e => visitExpr e
  -- visit_Block (lines 85-87)
  | .block ss => visitStmts ss
  -- visit_Print (lines 89-101)
  | .printS e => do
    visitExpr e
    (if isStrLiteral e then do
      emitL "    lea rcx, [fmt_str]"
      emitL "    mov rdx, rax"
     else do
      emitL "    lea rcx, [fmt_int]"
      emitL "    mov rdx, rax")
    emitL "    sub rsp, 32"
    emitL "    call printf"
    emitL "    add rsp, 32"
  -- visit_If (lines 106-121)
  | .ifS c t e => do
    let l_else ← new_label
    let l_end ← new_label
    visitExpr c
    emitL "    cmp rax, 0"
    emitL ("    je " ++ l_else)
    visitStmts t
    emitL ("    jmp " ++ l_end)
    emitL (l_else ++ ":")
    (match e with
     | some b => visitStmts b
     | none => pure ())
    emitL (l_end ++ ":")
  -- visit_While (lines 123-136)
  | .whileS c b => do
    let l_start ← new_label
    let l_end ← new_label
    modifyS (fun s => { s with loop_stack := (l_start, l_end) :: s.loop_stack })
    emitL (l_start ++ ":")
    visitExpr c
    emitL "    cmp rax, 0"
    emitL ("    je " ++ l_end)
    visitStmts b
    emitL ("    jmp " ++ l_start)
    emitL (l_end ++ ":")
    modifyS (fun s => { s with loop_stack := s.loop_stack.tail })
  -- visit_Break (lines 138-142): nothing at all when the stack is empty
  | .breakS _ => do
    let s ← getS
    match s.loop_stack with
    | [] => pure ()
    | (_, l_end) :: _ => emitL ("    jmp " ++ l_end)
  -- visit_Continue (lines 144-148)
  | .continueS _ => do
    let s ← getS
    match s.loop_stack with
    | [] => pure ()
    | (l_start, _) :: _ => emitL ("    jmp " ++ l_start)
  -- visit_Function (lines 242-290)
  | .function nt params body => do
    let l_end ← new_label
    emitL ("    jmp " ++ l_end)
    emitL ("func_" ++ nt.lexeme ++ ":")
    emitL "    push rbp"
    emitL "    mov rbp, rsp"
    modifyS (fun s => { s with local_scope := true, locals := [] })
    let s ← getS
    let res := assignLocals (collect_vars body) s.globalVars
    modifyS (fun t => { t with locals := res.1 })
    let stack_size := roundStack (res.2 + 32)
    emitL ("    sub rsp, " ++ toString stack_size)
    modifyS (fun t => { t with current_func_params := some (buildParams params) })
    visitStmts body
    emitL "    xor rax, rax"
    emitL "    mov rsp, rbp"
    emitL "    pop rbp"
    emitL "    ret"
    emitL (l_end ++ ":")
    modifyS (fun t =>
      { t with local_scope := false, locals := [], current_func_params := none })
  -- visit_Return (lines 310-315)
  | .returnS _ v => do
    (match v with
     | some e => visitExpr e
     | none => pure ())
    emitL "    mov rsp, rbp"
    emitL "    pop rbp"
    emitL "    ret"
  -- visit_FileWrite (lines 483-502)
  | .fileWrite path content => do
    visitExpr path
    emitL "    mov rcx, rax"
    emitL "    lea rdx, [mode_w]"
    emitL "    sub rsp, 32"
    emitL "    call fopen"
    emitL "    add rsp, 32"
    emitL "    mov rbx, rax"
    visitExpr content
    emitL "    mov rcx, rbx"
    emitL "    mov rdx, rax"
    emitL "    sub rsp, 32"
    emitL "    call fprintf"
    emitL "    add rsp, 32"
    emitL "    mov rcx, rbx"
    emitL "    sub rsp, 32"
    emitL "    call fclose"
    emitL "    add rsp, 32"
  -- visit_FileAppend (lines 504-523)
  | .fileAppend path content => do
    visitExpr path
    emitL "    mov rcx, rax"
    emitL "    lea rdx, [mode_a]"
    emitL "    sub rsp, 32"
    emitL "    call fopen"
    emitL "    add rsp, 32"
    emitL "    mov rbx, rax"
    visitExpr content
    emitL "    mov rcx, rbx"
    emitL "    mov rdx, rax"
    emitL "    sub rsp, 32"
    emitL "    call fprintf"
    emitL "    add rsp, 32"
    emitL "    mov rcx, rbx"
    emitL "    sub rsp, 32"
    emitL "    call fclose"
    emitL "    add rsp, 32"
  -- visit_FileRead (lines 525-582)
  | .fileRead path target => do
    visitExpr path
    emitLines ["    mov rcx, rax", "    lea rdx, [mode_r]", "    sub rsp, 32",
      "    call fopen", "    add rsp, 32", "    mov rbx, rax",
      "    mov rcx, rbx", "    mov rdx, 0", "    mov r8, 2", "    sub rsp, 32",
      "    call fseek", "    add rsp, 32",
      "    mov rcx, rbx", "    sub rsp, 32", "    call ftell",
      "    add rsp, 32", "    mov r12, rax",
      "    mov rcx, rbx", "    sub rsp, 32", "    call rewind", "    add rsp, 32",
      "    mov rcx, r12", "    add rcx, 1", "    sub rsp, 32", "    call malloc",
      "    add rsp, 32", "    mov r13, rax",
      "    mov rcx, r13", "    mov rdx, 1", "    mov r8, r12", "    mov r9, rbx",
      "    sub rsp, 32", "    call fread", "    add rsp, 32",
      "    mov byte [r13 + r12], 0",
      "    mov rcx, rbx", "    sub rsp, 32", "    call fclose", "    add rsp, 32"]
    let s ← getS
    let var_name := target.lexeme
    match (if s.local_scope then lookupA s.locals var_name else none) with
    | some offset => emitL ("    mov [rbp - " ++ toString offset ++ "], r13")
    | none => do
      (if s.globalVars.contains var_name then pure ()
       else modifyS (fun t => { t with globalVars := t.globalVars ++ [var_name] }))
      emitL ("    mov [var_" ++ var_name ++ "], r13")
  | .inputS _ => throwE "Compiler: No visit_Input method"

/-- The statement loops (`visit_Block`, the body loops of `compile` and
`visit_Function`): visit each statement in order. -/
def visitStmts : List Stmt → EmitM Unit
  | [] => pure ()
  | st :: rest => do
    visitStmt st
    visitStmts rest

/-- The argument loop of `visit_Call` (lines 324-326): lower each argument
left-to-right, pushing its result right after evaluating it. -/
def visitArgsPush : List Expr → EmitM Unit
  | [] => pure ()
  | a :: rest => do
    visitExpr a
    emitL "    push rax"
    visitArgsPush rest

/-- The element loop of `visit_ArrayLiteral` (lines 465-469): lower each
element, reload the preserved base pointer from the stack, and store at
offset `i * 8`. -/
def visitArrayElems : List Expr → Nat → EmitM Unit
  | [], _ => pure ()
  | e :: rest, i => do
    visitExpr e
    emitL "    mov rbx, [rsp]"
    emitL ("    mov [rbx + " ++ toString (i * 8) ++ "], rax")
    visitArrayElems rest (i + 1)

/-- `Compiler.compile_intrinsic` (lines 345-452).  `args[i]` raises
`IndexError` when the argument is missing, which the `match` models; for
the two-step intrinsics any lines emitted before the raise are discarded
with the raise, as compilation aborts. -/
def compile_intrinsic (name : String) (args : List Expr) : EmitM Unit :=
  if name = "준비" then
    match args with
    | a0 :: _ => do
      visitExpr a0
      emitLines ["    imul rax, 8", "    mov rcx, rax", "    sub rsp, 32",
        "    call malloc", "    add rsp, 32"]
    | [] => throwE "list index out of range"
  else if name = "길이" then
    match args with
    | a0 :: _ => do
      visitExpr a0
      emitLines ["    mov rcx, rax", "    sub rsp, 32", "    call strlen",
        "    add rsp, 32"]
    | [] => throwE "list index out of range"
  else if name = "코드" then
    match args with
    | a0 :: _ => do
      visitExpr a0
      emitL "    movzx rax, byte [rax]"
    | [] => throwE "list index out of range"
  else if name = "문자읽기" then
    match args with
    | a0 :: a1 :: _ => do
      visitExpr a0
      emitL "    push rax"
      visitExpr a1
      emitLines ["    pop rbx", "    add rbx, rax", "    movzx rax, byte [rbx]"]
    | [a0] => do
      visitExpr a0
      emitL "    push rax"
      throwE "list index out of range"
    | [] => throwE "list index out of range"
  else if name = "문자" then
    match args with
    | a0 :: _ => do
      visitExpr a0
      emitLines ["    push rax", "    mov rcx, 2", "    sub rsp, 32",
        "    call malloc", "    add rsp, 32", "    pop rbx", "    mov [rax], bl",
        "    mov byte [rax+1], 0"]
    | [] => throwE "list index out of range"
  else if name = "문자연결" then
    match args with
    | a0 :: a1 :: _ => do
      emitLines ["    push r12", "    push r13", "    push r14", "    push r15"]
      visitExpr a0
      emitL "    push rax"
      visitExpr a1
      emitLines ["    push rax", "    pop r13", "    pop r12",
        "    mov rcx, r12", "    sub rsp, 32", "    call strlen",
        "    add rsp, 32", "    mov r14, rax",
        "    mov rcx, r13", "    sub rsp, 32", "    call strlen",
        "    add rsp, 32", "    add r14, rax", "    inc r14",
        "    mov rcx, r14", "    sub rsp, 32", "    call malloc",
        "    add rsp, 32", "    mov r15, rax",
        "    mov rcx, r15", "    mov rdx, r12", "    sub rsp, 32",
        "    call strcpy", "    add rsp, 32",
        "    mov rcx, r15", "    mov rdx, r13", "    sub rsp, 32",
        "    call strcat", "    add rsp, 32",
        "    mov rax, r15",
        "    pop r15", "    pop r14", "    pop r13", "    pop r12"]
    | [a0] => do
      emitLines ["    push r12", "    push r13", "    push r14", "    push r15"]
      visitExpr a0
      emitL "    push rax"
      throwE "list index out of range"
    | [] => throwE "list index out of range"
  else if name = "문자열변환" then
    match args with
    | a0 :: _ => do
      emitL "    push r12"
      visitExpr a0
      emitLines ["    push rax", "    mov rcx, 32", "    sub rsp, 32",
        "    call malloc", "    add rsp, 32", "    mov r12, rax",
        "    pop r8", "    mov rcx, r12", "    lea rdx, [fmt_int_simple]",
        "    sub rsp, 32", "    call sprintf", "    add rsp, 32",
        "    mov rax, r12", "    pop r12"]
    | [] => throwE "list index out of range"
  else pure ()
end

/-- The twenty consecutive `self.emit` calls opening `Compiler.compile`
(lines 20-41), collapsed into one list in emission order. -/
def compileHeader : List String :=
  ["global Start", "extern ExitProcess", "extern printf", "extern scanf",
   "extern malloc", "extern free", "extern fopen", "extern fclose",
   "extern fprintf", "extern fread", "extern fseek", "extern ftell",
   "extern rewind", "extern strlen", "extern strcpy", "extern strcat",
   "extern sprintf", "section .text", "Start:", "    sub rsp, 40"]

/-- The emission phase of `Compiler.compile` (lines 20-47): header, the
top-level statements, then the exit sequence. -/
def compileProgram (statements : List Stmt) : EmitM Unit := do
  emitLines compileHeader
  visitStmts statements
  emitLines ["    xor rcx, rcx", "    call ExitProcess"]

/-- The fixed data-section lines of `Compiler.compile` (lines 53-58). -/
def dataFixedLines : List String :=
  ["    fmt_int db \"%lld\", 10, 0",
   "    fmt_int_simple db \"%lld\", 0",
   "    fmt_str db \"%s\", 10, 0",
   "    mode_r db \"rb\", 0",
   "    mode_w db \"w\", 0",
   "    mode_a db \"a\", 0"]

/-- The rendering phase of `Compiler.compile` (lines 49-67): `default rel`,
the data section (fixed templates and modes, then the literal pool), the
bss section (one `resq 1` cell per global), then the accumulated output. -/
def asmLines (s : Cst) (out : List String) : List String :=
  ["default rel", "section .data"] ++ dataFixedLines
    ++ s.string_literals.map (fun p => "    " ++ p.1 ++ " db \"" ++ p.2 ++ "\", 0")
    ++ ["section .bss"]
    ++ s.globalVars.map (fun v => "    var_" ++ v ++ " resq 1")
    ++ out

/-- `Compiler.compile` on a fresh `Compiler()` instance, as `jaeumc`/`main`
invoke it: emit, then render and join with newlines. -/
def compile (statements : List Stmt) : Except String String :=
  match compileProgram statements initialState with
  | .error e => .error e
  | .ok (_, s, out) => .ok (String.intercalate "\n" (asmLines s out))

/-- The rendered module as a line list (empty when compilation raised),
for stating section-order facts. -/
def compiledLines (statements : List Stmt) : List String :=
  match compileProgram statements initialState with
  | .error _ => []
  | .ok (_, s, out) => asmLines s out

-- Specification-side definitions, written from the claims' wording, to be
-- compared with the code-side definitions above.

/-- Deduplication keeping first occurrences: `firstDedupAux l seen` drops
every element already in `seen` or seen earlier in `l`. -/
def firstDedupAux : List String → List String → List String
  | [], _ => []
  | x :: xs, seen =>
    if seen.contains x then firstDedupAux xs seen
    else x :: firstDedupAux xs (seen ++ [x])

def firstDedup (l : List String) : List String := firstDedupAux l []

mutual
/-- The "assigned-to names of the body" as claim C3 words them: targets of
assignment statements found anywhere in the body, including inside nested
blocks, both branches of conditionals, and loop bodies, but not inside
nested function declarations. -/
def assignedNamesStmt : Stmt → List String
  | .expression e =>
    match e with
    | .assign nt _ => [nt.lexeme]
    | _ => []
  | .block ss => assignedNames ss
  | .ifS _ t e =>
    assignedNames t ++ (match e with
      | some b => assignedNames b
      | none => [])
  | .whileS _ b => assignedNames b
  | _ => []

def assignedNames : List Stmt → List String
  | [] => []
  | st :: rest => assignedNamesStmt st ++ assignedNames rest
end

/-- The local table exactly as claim C3 states it: the distinct assigned-to
names of the body that are NEITHER declared parameters NOR
already-registered globals, at 8-byte strides starting at 8. -/
def claimLocalTable (body : List Stmt) (params : List String)
    (globals : List String) : List (String × Nat) :=
  (firstDedup ((assignedNames body).filter
      (fun n => !(params.contains n) && !(globals.contains n)))).enum.map
    (fun p => (p.2, 8 + 8 * p.1))

/-- The local table the code actually builds (amended claim C3): the
distinct assigned-to names of the body that are not already-registered
globals — declared parameters are NOT excluded — at 8-byte strides
starting at 8. -/
def amendedLocalTable (body : List Stmt) (globals : List String) :
    List (String × Nat) :=
  (firstDedup ((assignedNames body).filter (fun n => !(globals.contains n)))).enum.map
    (fun p => (p.2, 8 + 8 * p.1))

/-- Offsets at 8-byte strides from `off`, in list order (the shape the
offset-assignment loop produces). -/
def offsetTable : List String → Nat → List (String × Nat)
  | [], _ => []
  | n :: rest, off => (n, off) :: offsetTable rest (off + 8)

/-- The argument protocol as claims C6/C9 word it: lower each argument
expression left-to-right, pushing its result onto the stack immediately
after evaluation. -/
def specArgs (args : List Expr) : EmitM Unit :=
  args.forM (fun a => do
    visitExpr a
    emitL "    push rax")

/-- Array-literal lowering as claim C8 words it: allocate exactly
`max(1, n) * 8` bytes, preserve the base pointer on the stack across the
per-element stores, store element `i` at offset `i * 8` from the base,
and leave the base pointer in the accumulator. -/
def arrayLiteralSpec (elements : List Expr) : EmitM Unit := do
  emitL ("    mov rcx, " ++ toString (max 1 elements.length * 8))
  emitL "    sub rsp, 32"
  emitL "    call malloc"
  emitL "    add rsp, 32"
  emitL "    push rax"
  elements.enum.forM (fun p => do
    visitExpr p.2
    emitL "    mov rbx, [rsp]"
    emitL ("    mov [rbx + " ++ toString (p.1 * 8) ++ "], rax"))
  emitL "    pop rax"

/-- Indexed-read lowering as claim C8 words it: lower the object, preserve
it, lower the index, and load the 8-byte word at `base + index*8`. -/
def getSpec (o idx : Expr) : EmitM Unit := do
  visitExpr o
  emitL "    push rax"
  visitExpr idx
  emitL "    mov rbx, rax"
  emitL "    pop rax"
  emitL "    lea rcx, [rax + rbx*8]"
  emitL "    mov rax, [rcx]"

-- A small stack-machine semantics for the pop sequence of `visit_Call`,
-- to state where each pushed argument value lands.

/-- Register targeted by the pop for push-index `i`: the i-th argument
register for `i < 4`, the discard register `rax` otherwise. -/
def targetReg (i : Nat) : String :=
  if i < 4 then regsCall.getD i "" else "rax"

/-- The pop targets of `popLoop cnt` in emission order (index `cnt-1`
first). -/
def popTargets : Nat → List String
  | 0 => []
  | i + 1 => targetReg i :: popTargets i

/-- State of the pop interpreter: a register file as a write-log (most
recent write first) and the value stack (top first). -/
structure PopSt where
  regs : List (String × Int)
  stack : List Int
deriving DecidableEq, Repr

/-- Execute a pop-target list: each pop moves the top of stack into the
named register. -/
def runPopTargets : List String → PopSt → PopSt
  | [], st => st
  | t :: rest, st =>
    match st.stack with
    | v :: s' => runPopTargets rest { regs := (t, v) :: st.regs, stack := s' }
    | [] => runPopTargets rest st

/-- Read a register from the write-log (most recent write wins). -/
def regVal (st : PopSt) (r : String) : Option Int :=
  (st.regs.find? (fun p => p.1 == r)).map (fun p => p.2)

-- Theorems ------------------------------------------------------------------

theorem EmitM.bind_apply {α β : Type} (m : EmitM α) (f : α → EmitM β) (s : Cst) :
    (m >>= f) s = match m s with
      | .error e => .error e
      | .ok (a, s', o1) =>
        match f a s' with
        | .error e => .error e
        | .ok (b, s'', o2) => .ok (b, s'', o1 ++ o2) := rfl

theorem EmitM.pure_apply {α : Type} (a : α) (s : Cst) :
    (pure a : EmitM α) s = .ok (a, s, []) := rfl

/-- C1 — the claim is wrong about the code and right about the intent:
lowering a `<=` or `>=` comparison emits NO compare and no
set-and-zero-extend sequence.  Line 228 of `compiler.py` tests membership
in `[EQUAL_EQUAL, BANG_EQUAL, LESS, GREATER]`, so `LESS_EQUAL` and
`GREATER_EQUAL` fall through and the lowering ends right after the
operand shuffle, leaving the LEFT operand (not a 0/1 value) in `rax` —
even though the `cond` dict on lines 230-237 carries entries for both,
the lexer/parser produce both tokens, and the interpreter supports both.
At the failing inputs `5 <= 3` and `5 >= 3` the emitted code is exactly
the operand shuffle. -/
theorem compare_lowering_misses_le_ge :
    visitExpr (.binary (.literal (.int 5)) ⟨.LESS_EQUAL, "<="⟩ (.literal (.int 3)))
        initialState
      = .ok ((), initialState,
          ["    mov rax, 5", "    push rax", "    mov rax, 3",
           "    mov rbx, rax", "    pop rax"])
    ∧ visitExpr (.binary (.literal (.int 5)) ⟨.GREATER_EQUAL, ">="⟩ (.literal (.int 3)))
        initialState
      = .ok ((), initialState,
          ["    mov rax, 5", "    push rax", "    mov rax, 3",
           "    mov rbx, rax", "    pop rax"]) :=
  ⟨rfl, rfl⟩

/-- C4 counterexample — the claim says an assignment whose target is in no
symbol table aborts code generation; in fact `visit_Assign` reaches the
`pass` on lines 196-204 and RETURNS NORMALLY, emitting only the code for
the value expression and no store.  Concretely, in local scope with empty
tables, lowering `q = 1` succeeds and emits just `mov rax, 1`. -/
theorem assign_unknown_target_no_abort_cex :
    visitExpr (.assign ⟨.IDENTIFIER, "q"⟩ (.literal (.int 1)))
        { initialState with local_scope := true }
      = .ok ((), { initialState with local_scope := true }, ["    mov rax, 1"]) := rfl

/-- C4 amended — unrecognized AST node kinds (those with no `visit_` method:
Grouping, Unary, Logical, Set, Input) do raise and abort immediately; but
an assignment whose target is absent from every symbol table inside a
function body does NOT abort: it completes normally, emitting exactly the
value expression's code and no store instruction.  (`visit_Assign` never
consults the parameter table at all; the parameter hypothesis is included
only to match the claim's "absent from every symbol table".) -/
theorem internal_fault_handling_amended :
    (∀ (s : Cst) (e : Expr),
      visitExpr (.grouping e) s = .error "Compiler: No visit_Grouping method")
    ∧ (∀ (s : Cst) (t : Token) (e : Expr),
      visitExpr (.unary t e) s = .error "Compiler: No visit_Unary method")
    ∧ (∀ (s : Cst) (l : Expr) (t : Token) (r : Expr),
      visitExpr (.logical l t r) s = .error "Compiler: No visit_Logical method")
    ∧ (∀ (s : Cst) (o n v : Expr) (b : Token),
      visitExpr (.setE o n v b) s = .error "Compiler: No visit_Set method")
    ∧ (∀ (s : Cst) (t : Token),
      visitStmt (.inputS t) s = .error "Compiler: No visit_Input method")
    ∧ (∀ (nt : Token) (v : Expr) (s s' : Cst) (o : List String),
      visitExpr v s = .ok ((), s', o) →
      s'.local_scope = true →
      lookupA s'.locals nt.lexeme = none →
      s'.globalVars.contains nt.lexeme = false →
      (match s'.current_func_params with
       | some m => lookupA m nt.lexeme
       | none => none) = none →
      visitExpr (.assign nt v) s = .ok ((), s', o)) := by
  refine ⟨fun s e => rfl, fun s t e => rfl, fun s l t r => rfl,
    fun s o n v b => rfl, fun s t => rfl, ?_⟩
  intro nt v s s' o hv hl hlk hg _
  simp only [visitExpr]
  rw [EmitM.bind_apply, hv]
  simp only [EmitM.bind_apply, getS, hl, hlk, hg]
  simp [EmitM.pure_apply]

theorem internal_fault_handling_amended_witness :
    visitExpr (.assign ⟨.IDENTIFIER, "q"⟩ (.literal (.int 1)))
        { initialState with local_scope := true }
      = .ok ((), { initialState with local_scope := true }, ["    mov rax, 1"]) :=
  internal_fault_handling_amended.2.2.2.2.2 ⟨.IDENTIFIER, "q"⟩
    (.literal (.int 1)) { initialState with local_scope := true }
    { initialState with local_scope := true } ["    mov rax, 1"] rfl rfl rfl rfl rfl

/-- C7 — `visit_Break`/`visit_Continue` with a non-empty loop-context stack
emit exactly one jump to the end/start label of the top-of-stack pair —
the innermost enclosing loop, since `visit_While` pushes on entry and
pops on exit and block nesting never touches the stack — and with an
empty stack they emit nothing at all and leave the state unchanged. -/
theorem break_continue_top_of_stack :
    (∀ (s : Cst) (kt : Token), s.loop_stack = [] →
      visitStmt (.breakS kt) s = .ok ((), s, []))
    ∧ (∀ (s : Cst) (kt : Token) (a b : String) (rest : List (String × String)),
      s.loop_stack = (a, b) :: rest →
      visitStmt (.breakS kt) s = .ok ((), s, ["    jmp " ++ b]))
    ∧ (∀ (s : Cst) (kt : Token), s.loop_stack = [] →
      visitStmt (.continueS kt) s = .ok ((), s, []))
    ∧ (∀ (s : Cst) (kt : Token) (a b : String) (rest : List (String × String)),
      s.loop_stack = (a, b) :: rest →
      visitStmt (.continueS kt) s = .ok ((), s, ["    jmp " ++ a])) := by
  refine ⟨?_, ?_, ?_, ?_⟩ <;> intro s kt <;> first
  | (intro h
     show (getS >>= fun st => _) s = _
     rw [EmitM.bind_apply]
     simp only [getS, h]
     simp [EmitM.pure_apply, emitL])
  | (intro a b rest h
     show (getS >>= fun st => _) s = _
     rw [EmitM.bind_apply]
     simp only [getS, h]
     simp [EmitM.pure_apply, emitL])

theorem break_continue_top_of_stack_witness :
    visitStmt (.breakS ⟨.BREAK, "b"⟩)
        { initialState with loop_stack := [("L3", "L4"), ("L1", "L2")] }
      = .ok ((), { initialState with loop_stack := [("L3", "L4"), ("L1", "L2")] },
          ["    jmp L4"])
    ∧ visitStmt (.continueS ⟨.CONTINUE, "c"⟩)
        { initialState with loop_stack := [("L3", "L4"), ("L1", "L2")] }
      = .ok ((), { initialState with loop_stack := [("L3", "L4"), ("L1", "L2")] },
          ["    jmp L3"])
    ∧ visitStmt (.breakS ⟨.BREAK, "b"⟩) initialState = .ok ((), initialState, [])
    ∧ visitStmt (.continueS ⟨.CONTINUE, "c"⟩) initialState
      = .ok ((), initialState, []) :=
  ⟨break_continue_top_of_stack.2.1 _ _ "L3" "L4" [("L1", "L2")] rfl,
   break_continue_top_of_stack.2.2.2 _ _ "L3" "L4" [("L1", "L2")] rfl,
   break_continue_top_of_stack.1 _ _ rfl,
   break_continue_top_of_stack.2.2.1 _ _ rfl⟩

/-- C10 — compilation is deterministic: `compile` is a pure function of the
statement list (the embedding threads all compiler state — label counter,
literal pool, global table — explicitly from the fixed `initialState` of
a fresh instance), so two runs over the same input yield the same text. -/
theorem compile_deterministic :
    ∀ (statements : List Stmt) (r1 r2 : Except String String),
      compile statements = r1 → compile statements = r2 → r1 = r2 :=
  fun _ _ _ h1 h2 => h1 ▸ h2 ▸ rfl

theorem compile_deterministic_witness :
    (compile [] : Except String String) = compile [] :=
  compile_deterministic [] (compile []) (compile []) rfl rfl

/-- C2 — for every function declaration, whatever the collected locals and
the surrounding state, the operand of the frame-reserving `sub rsp, N`
emitted right after the prologue (`jmp` guard, entry label, `push rbp`,
`mov rbp, rsp`) is a multiple of 16: it is `current_offset + 32` rounded
up by lines 270-271 of `visit_Function`. -/
theorem function_frame_size_multiple_of_16 :
    ∀ (nt : Token) (params : List Token) (body : List Stmt) (s s' : Cst)
      (out : List String),
      visitStmt (.function nt params body) s = .ok ((), s', out) →
      out.take 5 = ["    jmp " ++ ("L" ++ toString (s.label_counter + 1)),
        "func_" ++ nt.lexeme ++ ":", "    push rbp", "    mov rbp, rsp",
        "    sub rsp, "
          ++ toString (roundStack ((assignLocals (collect_vars body) s.globalVars).2 + 32))]
      ∧ roundStack ((assignLocals (collect_vars body) s.globalVars).2 + 32) % 16 = 0 := by
  intro nt params body s s' out h
  have hmod : ∀ n : Nat, roundStack n % 16 = 0 := by
    intro n
    unfold roundStack
    split <;> omega
  refine ⟨?_, hmod _⟩
  simp only [visitStmt, EmitM.bind_apply, new_label, emitL, modifyS, getS] at h
  cases hb : visitStmts body
      (Cst.mk s.string_literals s.globalVars (s.label_counter + 1) s.loop_stack
        (assignLocals (collect_vars body) s.globalVars).1 true
        (some (buildParams params))) with
  | error e =>
    rw [hb] at h
    simp at h
  | ok t =>
    obtain ⟨u, s1, o1⟩ := t
    rw [hb] at h
    simp only [Except.ok.injEq, Prod.mk.injEq] at h
    obtain ⟨-, -, hout⟩ := h
    subst hout
    simp [List.take]

theorem function_frame_size_multiple_of_16_witness :
    (["    jmp L1", "func_f:", "    push rbp", "    mov rbp, rsp", "    sub rsp, 48",
      "    xor rax, rax", "    mov rsp, rbp", "    pop rbp", "    ret", "L1:"]).take 5
      = ["    jmp " ++ ("L" ++ toString (initialState.label_counter + 1)),
         "func_" ++ "f" ++ ":", "    push rbp", "    mov rbp, rsp",
         "    sub rsp, " ++ toString
           (roundStack ((assignLocals (collect_vars ([] : List Stmt)) initialState.globalVars).2 + 32))]
      ∧ roundStack
          ((assignLocals (collect_vars ([] : List Stmt)) initialState.globalVars).2 + 32) % 16
        = 0 :=
  function_frame_size_multiple_of_16 ⟨.IDENTIFIER, "f"⟩ [] [] initialState
    (Cst.mk [] [] 1 [] [] false none)
    ["    jmp L1", "func_f:", "    push rbp", "    mov rbp, rsp", "    sub rsp, 48",
     "    xor rax, rax", "    mov rsp, rbp", "    pop rbp", "    ret", "L1:"] rfl

mutual
theorem assignedNamesStmt_eq_collect : ∀ st : Stmt, assignedNamesStmt st = collectVarsStmt st
  | .expression e => by cases e <;> rfl
  | .function _ _ _ => rfl
  | .ifS c t e => by
    cases e with
    | none =>
      simp only [assignedNamesStmt, collectVarsStmt, assignedNames_eq_collect t]
    | some b =>
      simp only [assignedNamesStmt, collectVarsStmt, assignedNames_eq_collect t,
        assignedNames_eq_collect b]
  | .printS _ => rfl
  | .inputS _ => rfl
  | .fileWrite _ _ => rfl
  | .fileAppend _ _ => rfl
  | .fileRead _ _ => rfl
  | .returnS _ _ => rfl
  | .whileS c b => by
    simp only [assignedNamesStmt, collectVarsStmt, assignedNames_eq_collect b]
  | .block ss => by
    simp only [assignedNamesStmt, collectVarsStmt, assignedNames_eq_collect ss]
  | .breakS _ => rfl
  | .continueS _ => rfl

theorem assignedNames_eq_collect : ∀ ss : List Stmt, assignedNames ss = collect_vars ss
  | [] => rfl
  | st :: rest => by
    simp only [assignedNames, collect_vars, assignedNamesStmt_eq_collect st,
      assignedNames_eq_collect rest]
end

theorem strContains_append (l1 l2 : List String) (a : String) :
    (l1 ++ l2).contains a = (l1.contains a || l2.contains a) := by
  simp [List.contains, List.elem_iff, List.mem_append]

theorem offsetTable_eq_enumFrom :
    ∀ (d : List String) (base k : Nat),
      offsetTable d (base + 8 * k) = (List.enumFrom k d).map (fun p => (p.2, base + 8 * p.1)) := by
  intro d
  induction d with
  | nil => intro base k; rfl
  | cons n rest ih =>
    intro base k
    rw [List.enumFrom_cons]
    show (n, base + 8 * k) :: offsetTable rest (base + 8 * k + 8) = _
    have : base + 8 * k + 8 = base + 8 * (k + 1) := by ring
    rw [this, ih base (k + 1)]
    rfl

theorem assignLocalsAux_spec (gl : List String) :
    ∀ (vars : List String) (locs : List (String × Nat)) (off : Nat) (seen : List String),
      (∀ w, seen.contains w = containsKey locs w) →
      assignLocalsAux gl vars locs off =
        (locs ++ offsetTable (firstDedupAux (vars.filter (fun n => !(gl.contains n))) seen) off,
         off + 8 * (firstDedupAux (vars.filter (fun n => !(gl.contains n))) seen).length) := by
  intro vars
  induction vars with
  | nil =>
    intro locs off seen hseen
    simp [assignLocalsAux, firstDedupAux, offsetTable]
  | cons v rest ih =>
    intro locs off seen hseen
    by_cases hmem : v ∈ gl
    · have hgl : gl.contains v = true := by simpa using hmem
      by_cases hloc : containsKey locs v = true
      · simp only [assignLocalsAux, hloc, if_true]
        rw [ih locs off seen hseen]
        simp [List.filter_cons, hmem]
      · have hloc' : containsKey locs v = false := by simpa using hloc
        simp only [assignLocalsAux, hloc', Bool.false_eq_true, if_false, hgl, if_true]
        rw [ih locs off seen hseen]
        simp [List.filter_cons, hmem]
    · have hgl' : gl.contains v = false := by simpa using hmem
      by_cases hloc : containsKey locs v = true
      · have hseenv : seen.contains v = true := by rw [hseen]; exact hloc
        have hseenmem : v ∈ seen := by simpa using hseenv
        simp only [assignLocalsAux, hloc, if_true]
        rw [ih locs off seen hseen]
        simp [List.filter_cons, hmem, firstDedupAux, hseenmem]
      · have hloc' : containsKey locs v = false := by simpa using hloc
        have hseenv : seen.contains v = false := by rw [hseen]; exact hloc'
        have hseennot : v ∉ seen := by simpa using hseenv
        have hseen' : ∀ w, (seen ++ [v]).contains w = containsKey (locs ++ [(v, off)]) w := by
          intro w
          rw [strContains_append, hseen w]
          by_cases hwv : w = v
          · subst hwv
            simp [containsKey, List.any_append]
          · have hvw : ¬ (v = w) := fun h => hwv h.symm
            simp [containsKey, List.any_append, hwv, hvw]
        have hfilter : (v :: rest).filter (fun n => !(gl.contains n))
            = v :: rest.filter (fun n => !(gl.contains n)) := by
          simp [List.filter_cons, hmem]
        have hded : firstDedupAux (v :: rest.filter (fun n => !(gl.contains n))) seen
            = v :: firstDedupAux (rest.filter (fun n => !(gl.contains n))) (seen ++ [v]) := by
          simp [firstDedupAux, hseennot]
        simp only [assignLocalsAux, hloc', Bool.false_eq_true, if_false, hgl', if_true]
        rw [ih (locs ++ [(v, off)]) (off + 8) (seen ++ [v]) hseen', hfilter, hded]
        simp only [offsetTable, List.length_cons, Prod.mk.injEq]
        refine ⟨by simp, by ring⟩

theorem assignLocals_characterization (vars gl : List String) :
    assignLocals vars gl =
      (offsetTable (firstDedup (vars.filter (fun n => !(gl.contains n)))) 8,
       8 + 8 * (firstDedup (vars.filter (fun n => !(gl.contains n)))).length) := by
  unfold assignLocals firstDedup
  rw [assignLocalsAux_spec gl vars [] 8 [] (fun w => rfl)]
  simp [Nat.add_comm]

/-- C3 counterexample — the claim excludes declared parameters from the
local table, but the offset-assignment loop of `visit_Function` (lines
259-264) checks only the table built so far and the globals, never the
parameter list.  For `function f(p) { p = 1; }` the built table is
`[("p", 8)]` while the claim's table is empty. -/
theorem local_table_includes_parameter_cex :
    (assignLocals
        (collect_vars [Stmt.expression (.assign ⟨.IDENTIFIER, "p"⟩ (.literal (.int 1)))])
        []).1
      ≠ claimLocalTable
          [Stmt.expression (.assign ⟨.IDENTIFIER, "p"⟩ (.literal (.int 1)))] ["p"] [] := by
  decide

/-- C3 amended — the local table built by `visit_Function` before the body
is lowered contains exactly the distinct assigned-to names of the body
(statement-level assignments, recursing into nested blocks, both branches
of conditionals, and loop bodies, but not into nested function
declarations) that are not already-registered globals — declared
parameters are NOT excluded and receive local slots like any other name —
each mapped, in first-occurrence order, to a unique offset at 8-byte
strides starting at 8. -/
theorem local_table_amended_characterization :
    ∀ (body : List Stmt) (globals : List String),
      (assignLocals (collect_vars body) globals).1 = amendedLocalTable body globals
      ∧ (amendedLocalTable body globals).map Prod.snd
        = (List.range (amendedLocalTable body globals).length).map (fun i => 8 + 8 * i) := by
  intro body globals
  constructor
  · rw [assignLocals_characterization]
    unfold amendedLocalTable
    rw [assignedNames_eq_collect body]
    have h := offsetTable_eq_enumFrom
      (firstDedup ((collect_vars body).filter (fun n => !(globals.contains n)))) 8 0
    simpa [List.enum] using h
  · unfold amendedLocalTable
    rw [List.map_map]
    conv_rhs =>
      rw [List.length_map, List.enum_length, ← List.enum_map_fst
        (firstDedup ((assignedNames body).filter (fun n => !(globals.contains n))))]
    rw [List.map_map]
    rfl

/-- C5 counterexample — the claim puts the code section first; in the
rendered module of the empty program the data-section header (line index
1) precedes the text-section header, which sits inside the appended
output buffer. -/
theorem module_data_before_text_cex :
    (compiledLines []).indexOf "section .data" < (compiledLines []).indexOf "section .text" := by
  decide

/-- C5 amended — the rendered module contains, in order: `default rel`, the
DATA section (format templates, file-mode strings, literal pool), then
the uninitialized-data (bss) section with one reserved cell per global
variable, and the CODE section LAST — the emitted output buffer, which
starts with the fixed header (entry symbol `Start`, the extern
declarations, `section .text`, `Start:`) followed by the lowered
top-level statements and the exit sequence. -/
theorem module_section_order_amended :
    ∀ (statements : List Stmt) (s : Cst) (out : List String),
      compileProgram statements initialState = .ok ((), s, out) →
      ∃ body,
        out = compileHeader ++ body ++ ["    xor rcx, rcx", "    call ExitProcess"]
        ∧ asmLines s out
          = ["default rel", "section .data"] ++ dataFixedLines
            ++ s.string_literals.map (fun p => "    " ++ p.1 ++ " db \"" ++ p.2 ++ "\", 0")
            ++ ["section .bss"]
            ++ s.globalVars.map (fun v => "    var_" ++ v ++ " resq 1")
            ++ out := by
  intro statements s out h
  simp only [compileProgram, EmitM.bind_apply, emitLines] at h
  cases hb : visitStmts statements initialState with
  | error e =>
    rw [hb] at h
    simp at h
  | ok t =>
    obtain ⟨u, s1, o1⟩ := t
    rw [hb] at h
    simp only [Except.ok.injEq, Prod.mk.injEq] at h
    obtain ⟨-, hs, hout⟩ := h
    refine ⟨o1, ?_, by rw [asmLines]⟩
    rw [← hout]
    simp

theorem module_section_order_amended_witness :
    ∃ body,
      (compileHeader ++ ["    xor rcx, rcx", "    call ExitProcess"])
        = compileHeader ++ body ++ ["    xor rcx, rcx", "    call ExitProcess"]
      ∧ asmLines initialState (compileHeader ++ ["    xor rcx, rcx", "    call ExitProcess"])
        = ["default rel", "section .data"] ++ dataFixedLines
          ++ initialState.string_literals.map
              (fun p => "    " ++ p.1 ++ " db \"" ++ p.2 ++ "\", 0")
          ++ ["section .bss"]
          ++ initialState.globalVars.map (fun v => "    var_" ++ v ++ " resq 1")
          ++ (compileHeader ++ ["    xor rcx, rcx", "    call ExitProcess"]) :=
  module_section_order_amended [] initialState
    (compileHeader ++ ["    xor rcx, rcx", "    call ExitProcess"]) rfl

theorem EmitM.bind_assoc {α β γ : Type} (m : EmitM α) (f : α → EmitM β) (g : β → EmitM γ) :
    (m >>= f) >>= g = m >>= fun a => f a >>= g := by
  funext s
  simp only [EmitM.bind_apply]
  cases m s with
  | error e => rfl
  | ok t =>
    obtain ⟨a, s1, o1⟩ := t
    dsimp only
    cases f a s1 with
    | error e => rfl
    | ok t2 =>
      obtain ⟨b, s2, o2⟩ := t2
      dsimp only
      cases g b s2 with
      | error e => rfl
      | ok t3 =>
        obtain ⟨c, s3, o3⟩ := t3
        simp [List.append_assoc]

theorem visitArgsPush_eq : ∀ args : List Expr, visitArgsPush args = specArgs args := by
  intro args
  induction args with
  | nil => rfl
  | cons a rest ih =>
    show (visitExpr a >>= fun _ => emitL "    push rax" >>= fun _ => visitArgsPush rest) = _
    simp only [specArgs, List.forM, EmitM.bind_assoc]
    rw [ih]
    rfl

/-- C9 — when the callee of a call expression is not a simple Variable
node, `visit_Call` still lowers and pushes every argument, pops them, and
emits the scratch-space reservation and release, but the `call`
instruction itself is guarded by `isinstance(expr.callee, ast.Variable)`
(line 339) and is silently omitted: the emitted tail is exactly
`sub rsp, 32` immediately followed by `add rsp, 32`, and no error is
raised. -/
theorem non_variable_callee_omits_call :
    ∀ (callee : Expr) (ptok : Token) (args : List Expr) (s : Cst),
      isVariableE callee = false →
      visitExpr (.call callee ptok args) s
        = (specArgs args >>= fun _ =>
            emitLines (popLoop args.length ++ ["    sub rsp, 32", "    add rsp, 32"])) s := by
  intro callee ptok args s hcal
  cases callee
  case «variable» nt => exact absurd hcal (by simp [isVariableE])
  all_goals (
    simp only [visitExpr]
    rw [visitArgsPush_eq]
    rw [EmitM.bind_apply, EmitM.bind_apply]
    cases hr : specArgs args s with
    | error e => rfl
    | ok t =>
      obtain ⟨u, s1, o1⟩ := t
      dsimp only
      simp [EmitM.bind_apply, emitL, emitLines, List.append_assoc])

theorem non_variable_callee_omits_call_witness :
    visitExpr (.call (.literal (.int 7)) ⟨.LPAREN, "("⟩ [.literal (.int 1)]) initialState
      = (specArgs [.literal (.int 1)] >>= fun _ =>
          emitLines (popLoop 1 ++ ["    sub rsp, 32", "    add rsp, 32"])) initialState :=
  non_variable_callee_omits_call (.literal (.int 7)) ⟨.LPAREN, "("⟩
    [.literal (.int 1)] initialState rfl

theorem visitArrayElems_eq :
    ∀ (elements : List Expr) (i : Nat),
      visitArrayElems elements i
        = (List.enumFrom i elements).forM (fun p => do
            visitExpr p.2
            emitL "    mov rbx, [rsp]"
            emitL ("    mov [rbx + " ++ toString (p.1 * 8) ++ "], rax")) := by
  intro elements
  induction elements with
  | nil => intro i; rfl
  | cons e rest ih =>
    intro i
    rw [List.enumFrom_cons]
    show (visitExpr e >>= fun _ => emitL "    mov rbx, [rsp]" >>= fun _ =>
        emitL ("    mov [rbx + " ++ toString (i * 8) ++ "], rax") >>= fun _ =>
        visitArrayElems rest (i + 1)) = _
    simp only [List.forM, EmitM.bind_assoc]
    rw [ih (i + 1)]

/-- C8 — array-literal lowering allocates exactly `max(1, n) * 8` bytes
(lines 455-457 compute `n * 8` and patch `0` to `8`), pushes the returned
base pointer and reloads it from `[rsp]` before each per-element store,
stores element `i` at `[rbx + i*8]`, and pops the base pointer back into
the accumulator; an indexed read lowers object then index and loads the
8-byte word at `base + index*8`. -/
theorem array_literal_and_get_lowering :
    (∀ (elements : List Expr) (btok : Token) (s : Cst),
      visitExpr (.arrayLiteral elements btok) s = arrayLiteralSpec elements s)
    ∧ (∀ (o idx : Expr) (btok : Token) (s : Cst),
      visitExpr (.get o idx btok) s = getSpec o idx s) := by
  constructor
  · intro elements btok s
    have hsize : (if elements.length * 8 == 0 then (8 : Nat) else elements.length * 8)
        = max 1 elements.length * 8 := by
      cases elements with
      | nil => rfl
      | cons e rest =>
        have h1 : ((rest.length + 1) * 8 == 0) = false := by simp
        have h2 : max 1 (rest.length + 1) = rest.length + 1 := by omega
        simp [List.length_cons, h1, h2]
    simp only [visitExpr]
    rw [hsize, visitArrayElems_eq elements 0]
    rfl
  · intro o idx btok s
    rfl

theorem popLoop_eq_targets : ∀ n, popLoop n = (popTargets n).map (fun t => "    pop " ++ t) := by
  intro n
  induction n with
  | zero => rfl
  | succ m ih =>
    rw [popLoop, popTargets, List.map_cons, ih]
    congr 1
    by_cases hm : m < 4
    · simp [targetReg, hm]
    · simp only [if_neg hm, targetReg]
      rfl

theorem runPopTargets_spec :
    ∀ (vs : List Int) (regs0 : List (String × Int)),
      runPopTargets (popTargets vs.length) ⟨regs0, vs.reverse⟩
        = ⟨vs.enum.map (fun p => (targetReg p.1, p.2)) ++ regs0, []⟩ := by
  intro vs
  induction vs using List.reverseRecOn with
  | nil => intro regs0; rfl
  | append_singleton vs a ih =>
    intro regs0
    have hlen : (vs ++ [a]).length = vs.length + 1 := by simp
    have hrev : (vs ++ [a]).reverse = a :: vs.reverse := by simp
    rw [hlen, hrev, popTargets]
    show runPopTargets (popTargets vs.length)
        ⟨(targetReg vs.length, a) :: regs0, vs.reverse⟩ = _
    rw [ih ((targetReg vs.length, a) :: regs0), List.enum_append]
    simp [List.enumFrom]

theorem find_target_spec :
    ∀ (vs : List Int) (k i : Nat), k ≤ i → i < k + vs.length → i < 4 →
      ((List.enumFrom k vs).map (fun p => (targetReg p.1, p.2))).find?
          (fun p => p.1 == regsCall.getD i "")
        = some (regsCall.getD i "", vs.getD (i - k) 0) := by
  intro vs
  induction vs with
  | nil =>
    intro k i h1 h2 h3
    simp only [List.length_nil] at h2
    omega
  | cons v rest ih =>
    intro k i h1 h2 h3
    simp only [List.length_cons] at h2
    rw [List.enumFrom_cons]
    simp only [List.map_cons]
    by_cases hik : i = k
    · subst hik
      have htr : targetReg i = regsCall.getD i "" := by simp [targetReg, h3]
      simp [List.find?, htr]
    · have hk4 : k < 4 := by omega
      have hne : (targetReg k == regsCall.getD i "") = false := by
        have hd : regsCall.getD k "" ≠ regsCall.getD i "" := by
          interval_cases k <;> interval_cases i <;> simp_all [regsCall]
        have : targetReg k ≠ regsCall.getD i "" := by
          simpa [targetReg, hk4] using hd
        simpa using this
      simp only [List.find?, hne]
      rw [ih (k + 1) i (by omega) (by omega) h3]
      have hsub : i - k = (i - (k + 1)) + 1 := by omega
      rw [hsub]
      simp [List.getD]

/-- C6 — the user-function call protocol: arguments are lowered
left-to-right with a push right after each one; the pop loop then runs
over the indices in reverse order, popping into the i-th argument
register (`rcx`, `rdx`, `r8`, `r9`) for `i < 4` and into the discard
register `rax` for every extra argument; the 32-byte scratch reservation
is emitted immediately before the `call func_<name>` and released
immediately after.  The last conjunct runs the pop sequence on the
stack as the pushes left it and shows argument `i` (for `i < 4`) indeed
lands in the i-th argument register. -/
theorem call_lowering_protocol :
    (∀ (ftok ptok : Token) (args : List Expr) (s : Cst),
      intrinsicNames.contains ftok.lexeme = false →
      visitExpr (.call (.variable ftok) ptok args) s
        = (specArgs args >>= fun _ =>
            emitLines (popLoop args.length
              ++ ["    sub rsp, 32", "    call func_" ++ ftok.lexeme,
                  "    add rsp, 32"])) s)
    ∧ (∀ n, n ≤ 4 →
        popLoop n = (List.range n).reverse.map (fun i => "    pop " ++ regsCall.getD i ""))
    ∧ (∀ n, 4 < n → popLoop n = List.replicate (n - 4) "    pop rax" ++ popLoop 4)
    ∧ (∀ n, popLoop n = (popTargets n).map (fun t => "    pop " ++ t))
    ∧ (∀ (vs : List Int) (i : Nat), i < vs.length → i < 4 →
        regVal (runPopTargets (popTargets vs.length) ⟨[], vs.reverse⟩)
            (regsCall.getD i "")
          = some (vs.getD i 0)) := by
  refine ⟨?_, ?_, ?_, popLoop_eq_targets, ?_⟩
  · intro ftok ptok args s h
    simp only [visitExpr, h, Bool.false_eq_true, if_false]
    rw [visitArgsPush_eq]
    rw [EmitM.bind_apply, EmitM.bind_apply]
    cases hr : specArgs args s with
    | error e => rfl
    | ok t =>
      obtain ⟨u, s1, o1⟩ := t
      dsimp only
      simp [EmitM.bind_apply, emitL, emitLines, List.append_assoc]
  · intro n hn
    interval_cases n <;> rfl
  · intro n hn
    induction n with
    | zero => omega
    | succ m ih =>
      by_cases hm : 4 < m
      · rw [popLoop, if_neg (by omega), ih hm]
        have hms : m + 1 - 4 = (m - 4) + 1 := by omega
        rw [hms, List.replicate_succ]
        rfl
      · have hm4 : m = 4 := by omega
        subst hm4
        rfl
  · intro vs i h1 h2
    rw [runPopTargets_spec vs []]
    simp only [regVal, List.append_nil]
    have : vs.enum = List.enumFrom 0 vs := rfl
    rw [this, find_target_spec vs 0 i (Nat.zero_le i) (by omega) h2]
    simp

theorem call_lowering_protocol_witness :
    (visitExpr (.call (.variable ⟨.IDENTIFIER, "myfn"⟩) ⟨.LPAREN, "("⟩
        [.literal (.int 1), .literal (.int 2), .literal (.int 3),
         .literal (.int 4), .literal (.int 5)]) initialState
      = (specArgs [.literal (.int 1), .literal (.int 2), .literal (.int 3),
           .literal (.int 4), .literal (.int 5)] >>= fun _ =>
          emitLines (popLoop 5
            ++ ["    sub rsp, 32", "    call func_myfn", "    add rsp, 32"]))
          initialState)
    ∧ popLoop 3 = (List.range 3).reverse.map (fun i => "    pop " ++ regsCall.getD i "")
    ∧ popLoop 6 = List.replicate 2 "    pop rax" ++ popLoop 4
    ∧ regVal (runPopTargets (popTargets 3) ⟨[], ([10, 20, 30] : List Int).reverse⟩)
        (regsCall.getD 1 "") = some 20 :=
  ⟨call_lowering_protocol.1 ⟨.IDENTIFIER, "myfn"⟩ ⟨.LPAREN, "("⟩ _ initialState (by decide),
   call_lowering_protocol.2.1 3 (by decide),
   call_lowering_protocol.2.2.1 6 (by decide),
   call_lowering_protocol.2.2.2.2 [10, 20, 30] 1 (by decide) (by decide)⟩
